import Mathlib

/-!
Verification of the field-mapping and type-validation engine of the
`compose` package (files `compose/field_mapping.go`, `compose/workflow.go`).

The Go code is shallowly embedded: Go's reflective types become the
inductive `GoType`, runtime values become `GoValue` (each struct field
carries its declared type and exported flag, mirroring what `reflect`
exposes), and every function of the source that the claims touch is
translated one-to-one.  The `fmt.Errorf` messages of the source are
represented by constructors of the structured error type `MErr` / `WErr`,
each carrying the same data that the Go format string interpolates.
Go panics (including panics raised inside the `reflect` standard library,
such as `Value.FieldByName` on a non-struct value) are represented by the
`crash` constructor of the result type `GRes`.
-/

set_option autoImplicit false

namespace Eino

/-! ### Go types (the fragment of `reflect.Type` the source manipulates)

`tAny` is `interface{}`; `tIface` is a named interface modelled as an
explicit capability set: the list of concrete types implementing it
(membership = `Implements`).  Struct field lists carry the field name,
its exported flag and its declared type, as `reflect.StructField` does. -/

mutual

inductive GoType : Type where
  | tString : GoType
  | tInt : GoType
  | tBool : GoType
  | tAny : GoType
  | tIface : TypeList → GoType
  | tStruct : FieldList → GoType
  | tMap : GoType → GoType → GoType
  | tPtr : GoType → GoType
  | tSlice : GoType → GoType

inductive FieldList : Type where
  | nil : FieldList
  | cons : String → Bool → GoType → FieldList → FieldList

inductive TypeList : Type where
  | nil : TypeList
  | cons : GoType → TypeList → TypeList

end

mutual

def GoType.beq : GoType → GoType → Bool
  | .tString, .tString => true
  | .tInt, .tInt => true
  | .tBool, .tBool => true
  | .tAny, .tAny => true
  | .tIface a, .tIface b => TypeList.beq a b
  | .tStruct a, .tStruct b => FieldList.beq a b
  | .tMap k1 e1, .tMap k2 e2 => GoType.beq k1 k2 && GoType.beq e1 e2
  | .tPtr a, .tPtr b => GoType.beq a b
  | .tSlice a, .tSlice b => GoType.beq a b
  | _, _ => false

def FieldList.beq : FieldList → FieldList → Bool
  | .nil, .nil => true
  | .cons n1 e1 t1 r1, .cons n2 e2 t2 r2 =>
      n1 == n2 && e1 == e2 && GoType.beq t1 t2 && FieldList.beq r1 r2
  | _, _ => false

def TypeList.beq : TypeList → TypeList → Bool
  | .nil, .nil => true
  | .cons t1 r1, .cons t2 r2 => GoType.beq t1 t2 && TypeList.beq r1 r2
  | _, _ => false

end

def TypeList.containsT : TypeList → GoType → Bool
  | .nil, _ => false
  | .cons t r, x => GoType.beq t x || TypeList.containsT r x

def isIfaceKind : GoType → Bool
  | .tAny => true
  | .tIface _ => true
  | _ => false

/-- Model of `reflect.Type.AssignableTo`, as used throughout the source:
identical types are assignable, and a type is assignable to an interface
it implements (`tAny` is implemented by everything, a `tIface` by exactly
its capability set). -/
def assignableTo (src dst : GoType) : Bool :=
  GoType.beq src dst ||
    (match dst with
     | .tAny => true
     | .tIface ms => TypeList.containsT ms src
     | _ => false)

/-! ### Go values

Struct fields carry (name, exported, declared type, value); maps carry
their declared key/element type so that an empty map still has a type.
`vNil` is the zero value of pointer/interface types, tagged with its
static type. -/

mutual

inductive GoValue : Type where
  | vString : String → GoValue
  | vInt : Int → GoValue
  | vBool : Bool → GoValue
  | vStruct : VFields → GoValue
  | vMap : GoType → GoType → Entries → GoValue
  | vPtr : GoValue → GoValue
  | vSlice : GoType → ValueList → GoValue
  | vNil : GoType → GoValue

inductive VFields : Type where
  | nil : VFields
  | cons : String → Bool → GoType → GoValue → VFields → VFields

inductive Entries : Type where
  | nil : Entries
  | cons : String → GoValue → Entries → Entries

inductive ValueList : Type where
  | nil : ValueList
  | cons : GoValue → ValueList → ValueList

end

mutual

def typeOf : GoValue → GoType
  | .vString _ => .tString
  | .vInt _ => .tInt
  | .vBool _ => .tBool
  | .vStruct fs => .tStruct (declOf fs)
  | .vMap k e _ => .tMap k e
  | .vPtr v => .tPtr (typeOf v)
  | .vSlice t _ => .tSlice t
  | .vNil t => t

def declOf : VFields → FieldList
  | .nil => .nil
  | .cons n ex t _ r => .cons n ex t (declOf r)

end

mutual

/-- Modelled from the spec: `generic.NewInstance[T]` is not part of the
two source files under scrutiny; per spec §4.5 the Value Converter must
"instantiate a zero-valued successor input of the declared type
(allocating a fresh, unshared instance)" and per §4.2 keyed mappings are
initialized when uninitialized, so the zero map is the empty map. -/
def zeroValue : GoType → GoValue
  | .tString => .vString ""
  | .tInt => .vInt 0
  | .tBool => .vBool false
  | .tAny => .vNil .tAny
  | .tIface ms => .vNil (.tIface ms)
  | .tStruct fs => .vStruct (zeroFields fs)
  | .tMap k e => .vMap k e .nil
  | .tPtr t => .vNil (.tPtr t)
  | .tSlice t => .vSlice t .nil

def zeroFields : FieldList → VFields
  | .nil => .nil
  | .cons n ex t r => .cons n ex t (zeroValue t) (zeroFields r)

end

def VFields.lookupF : VFields → String → Option (Bool × GoType × GoValue)
  | .nil, _ => none
  | .cons n ex t v r, f => if n = f then some (ex, t, v) else VFields.lookupF r f

def VFields.setF : VFields → String → GoValue → VFields
  | .nil, _, _ => .nil
  | .cons n ex t v r, f, x =>
      if n = f then .cons n ex t x r else .cons n ex t v (VFields.setF r f x)

def Entries.lookupE : Entries → String → Option GoValue
  | .nil, _ => none
  | .cons k v r, key => if k = key then some v else Entries.lookupE r key

/-- `reflect.Value.SetMapIndex`: replaces an existing entry, appends a new one. -/
def Entries.setE : Entries → String → GoValue → Entries
  | .nil, key, x => .cons key x .nil
  | .cons k v r, key, x =>
      if k = key then .cons k x r else .cons k v (Entries.setE r key x)

def FieldList.lookupT : FieldList → String → Option (Bool × GoType)
  | .nil, _ => none
  | .cons n ex t r, f => if n = f then some (ex, t) else FieldList.lookupT r f

def ValueList.append : ValueList → ValueList → ValueList
  | .nil, ys => ys
  | .cons x xs, ys => .cons x (ValueList.append xs ys)

/-! ### Mapping descriptors and errors -/

/-- `FieldMapping` (field_mapping.go:30).  The Go fields `from` and `to`
are reserved words in Lean, so they are called `fromF` and `toF` here. -/
structure FieldMapping : Type where
  fromNodeKey : String
  fromF : String
  toF : String
deriving DecidableEq

/-- The `fmt.Errorf` failures of field_mapping.go, one constructor per
distinct format string, carrying the interpolated data. -/
inductive MErr : Type where
  | entireMismatch (src dst : GoType)                      -- field_mapping.go:158
  | fromFieldNotFound (f : String) (t : GoType)            -- :191
  | fromFieldNotExported (f : String) (t : GoType)         -- :195
  | fromMapNotStringKey (t : GoType)                       -- :203
  | fromMapKeyNotFound (k : String) (t : GoType)           -- :208
  | typeNotStringKeyMap (t : GoType)                       -- :221
  | typeNotStruct (t : GoType)                             -- :232
  | typeNoField (t : GoType) (f : String)                  -- :237
  | typeFieldUnexported (t : GoType) (f : String)          -- :241
  | toNotStruct (t : GoType)                               -- :255
  | toFieldNotFound (f : String) (t : GoType)              -- :260
  | toFieldNotSettable (f : String) (t : GoType)           -- :264
  | toFieldMismatch (f : String) (src dst : GoType)        -- :268
  | toMapNotMap (t : GoType)                               -- :276
  | toMapNotStringKey (t : GoType)                         -- :280
  | toMapValueMismatch (k : String) (src dst : GoType)     -- :284
  | unsupportedInputShape (t : GoType)                     -- :329
  | mergeFail (f : String)                                 -- :135
  | degenerateMapping                                      -- :376
  | succNotStructOrMap (t : GoType)                        -- :379
  | predNotStructOrMap (t : GoType)                        -- :382
  | staticCheckFail (m : FieldMapping) (e : MErr)          -- :393 / :397
  | mustNotAssignable (m : FieldMapping) (src dst : GoType) -- :402
  | runtimeCheckFail (m : FieldMapping) (dyn dst : GoType) -- :407

/-- Result of a Go call that may return an error or panic. -/
inductive GRes : Type where
  | ok : GoValue → GRes
  | fail : MErr → GRes
  | crash : String → GRes

/-! ### Field extraction (`takeOne` and friends, field_mapping.go:188-337) -/

/-- `checkAndExtractFromField` (field_mapping.go:188).  The Go code calls
`input.FieldByName(fromField)`, which per the `reflect` contract panics
when `input` is not a struct value — `takeOne`'s `Ptr` branch can feed it
one (see `takeOne`). -/
def checkAndExtractFromField (fromField : String) (input : GoValue) : GRes :=
  match input with
  | .vStruct fs =>
    match VFields.lookupF fs fromField with
    | none => .fail (.fromFieldNotFound fromField (typeOf input))
    | some (ex, _, v) =>
      if ex then .ok v else .fail (.fromFieldNotExported fromField (typeOf input))
  | _ => .crash "reflect: FieldByName of non-struct value"

/-- `checkAndExtractFromMapKey` (field_mapping.go:201). -/
def checkAndExtractFromMapKey (fromMapKey : String) (input : GoValue) : GRes :=
  match input with
  | .vMap kT eT es =>
    if assignableTo .tString kT = false then
      .fail (.fromMapNotStringKey (.tMap kT eT))
    else
      match Entries.lookupE es fromMapKey with
      | none => .fail (.fromMapKeyNotFound fromMapKey (.tMap kT eT))
      | some v => .ok v
  | _ => .crash "reflect: MapIndex of non-map value"

/-- `takeOne` (field_mapping.go:312).  Note the `Ptr` case of the Go
switch does `inputValue = inputValue.Elem()` and then falls through to
the `Struct` case unconditionally, so a pointer to a non-struct reaches
`FieldByName` and panics. -/
def takeOne (input : GoValue) (fromField : String) : GRes :=
  if fromField = "" then .ok input
  else
    match input with
    | .vMap kT eT es => checkAndExtractFromMapKey fromField (.vMap kT eT es)
    | .vPtr v => checkAndExtractFromField fromField v
    | .vStruct fs => checkAndExtractFromField fromField (.vStruct fs)
    | other => .fail (.unsupportedInputShape (typeOf other))

/-! ### Field injection (`assignOne` and friends, field_mapping.go:148-288) -/

/-- The pointer-dereference loop `for output.Kind() == reflect.Ptr`. -/
def derefAll : GoValue → GoValue
  | .vPtr v => derefAll v
  | v => v

/-- `checkAndExtractToMapKey` (field_mapping.go:274): the three checks it
performs before the caller does `SetMapIndex`; `none` means all passed. -/
def checkAndExtractToMapKey (toMapKey : String) (output toSet : GoValue) : Option MErr :=
  match output with
  | .vMap kT eT _ =>
    if assignableTo .tString kT = false then
      .some (.toMapNotStringKey (.tMap kT eT))
    else if assignableTo (typeOf toSet) eT = false then
      .some (.toMapValueMismatch toMapKey (typeOf toSet) eT)
    else
      none
  | other => .some (.toMapNotMap (typeOf other))

/-- `checkAndExtractToField` (field_mapping.go:249): dereferences the
output, requires a struct, an existing exported (settable) field, and
value-type assignability; `none` means the caller may `Set` the field. -/
def checkAndExtractToField (toField : String) (output toSet : GoValue) : Option MErr :=
  match derefAll output with
  | .vStruct fs =>
    match VFields.lookupF fs toField with
    | none => .some (.toFieldNotFound toField (.tStruct (declOf fs)))
    | some (ex, fty, _) =>
      if ex = false then .some (.toFieldNotSettable toField (.tStruct (declOf fs)))
      else if assignableTo (typeOf toSet) fty = false then
        .some (.toFieldMismatch toField (typeOf toSet) fty)
      else none
  | other => .some (.toNotStruct (typeOf other))

/-- The `field.Set(toSet)` performed by `assignOne` after
`checkAndExtractToField` succeeds: writes the named field of the struct
behind any pointer indirection. -/
def setStructField : GoValue → String → GoValue → GoValue
  | .vPtr v, f, x => .vPtr (setStructField v f x)
  | .vStruct fs, f, x => .vStruct (VFields.setF fs f x)
  | v, _, _ => v

/-- `assignOne` (field_mapping.go:148).  Mirrors the Go signature
`(T, error)`: the first component is the returned destination (the
original `dest` on every error path). -/
def assignOne (dest taken : GoValue) (toField : String) : GoValue × Option MErr :=
  if toField = "" then
    -- assign to output directly
    if assignableTo (typeOf taken) (typeOf dest) then (taken, none)
    else (dest, some (.entireMismatch (typeOf taken) (typeOf dest)))
  else
    match dest with
    | .vMap kT eT es =>
      match checkAndExtractToMapKey toField (.vMap kT eT es) taken with
      | some e => (.vMap kT eT es, some e)
      | none => (.vMap kT eT (Entries.setE es toField taken), none)
    | d =>
      match checkAndExtractToField toField d taken with
      | some e => (d, some e)
      | none => (setStructField d toField taken, none)

/-! ### Value conversion (`convertTo`, field_mapping.go:113-146)

The execution-time input `map[string]any` is modelled as an association
list `List (String × GoValue)`; a Go map never holds two entries with
the same key, which theorems express as a `Nodup` hypothesis on the key
list.  Lookup returns the first matching entry. -/

def lookupKV : List (String × GoValue) → String → Option GoValue
  | [], _ => none
  | (k, v) :: rest, key => if k = key then some v else lookupKV rest key

def updateKV : List (String × GoValue) → String → GoValue → List (String × GoValue)
  | [], _, _ => []
  | (k, v) :: rest, key, x =>
      if k = key then (k, x) :: rest else (k, v) :: updateKV rest key x

/-- One step of building `field2Values` (field_mapping.go:126-128):
`field2Values[toField] = append(field2Values[toField], taken)`. -/
def addGroup {α : Type} : List (String × List α) → String → α → List (String × List α)
  | [], k, v => [(k, [v])]
  | (k', vs) :: rest, k, v =>
      if k' = k then (k', vs ++ [v]) :: rest else (k', vs) :: addGroup rest k v

def groupByKey (l : List (String × GoValue)) : List (String × List GoValue) :=
  l.foldl (fun acc kv => addGroup acc kv.1 kv.2) []

/-- Modelled from the spec: `mergeValues` lives outside the two source
files.  Per spec §4.5 the merge policy concatenates sequence-typed
values and fails (`UnmergeableField`) when more than one value lands on
a field with no applicable policy. -/
def mergeValues : List GoValue → Option GoValue
  | [] => none
  | [v] => some v
  | .vSlice t es :: rest =>
    match mergeValues rest with
    | some (.vSlice t' es') =>
        if GoType.beq t t' then some (.vSlice t (ValueList.append es es')) else none
    | _ => none
  | _ => none

/-- The loop of `convertTo` over `field2Values` (field_mapping.go:130-143):
merge multiple values, then `assignOne`; an `assignOne` error is a panic
("convertTo failed when must succeed"). -/
def assignLoop (t : GoValue) : List (String × List GoValue) → GRes
  | [] => .ok t
  | (fieldName, values) :: rest =>
    match values with
    | [] => assignLoop t rest
    | v0 :: more =>
      match (if more.isEmpty then some v0 else mergeValues (v0 :: more)) with
      | none => .fail (.mergeFail fieldName)
      | some taken =>
        match assignOne t taken fieldName with
        | (t2, none) => assignLoop t2 rest
        | (_, some _) => .crash "convertTo failed when must succeed"

/-- `convertTo[T]` (field_mapping.go:113).  If the key `""` is present the
value stored under it is returned through the type assertion
`mappings[""].(T)` (a panic when the dynamic type does not satisfy `T`);
otherwise a zero instance of `T` is built field by field. -/
def convertTo (T : GoType) (mappings : List (String × GoValue)) : GRes :=
  match lookupKV mappings "" with
  | some v =>
      -- to the entire successor input
      if assignableTo (typeOf v) T then .ok v
      else .crash "interface conversion: type assertion failed"
  | none => assignLoop (zeroValue T) (groupByKey mappings)

/-! ### Static validation (`validateFieldMapping`, field_mapping.go:339-443) -/

/-- `isFromAll` (field_mapping.go:339). -/
def isFromAll : List FieldMapping → Bool
  | [] => false
  | m :: rest => if m.fromF = "" then true else isFromAll rest

/-- `isToAll` (field_mapping.go:348). -/
def isToAll : List FieldMapping → Bool
  | [] => false
  | m :: rest => if m.toF = "" then true else isToAll rest

/-- `validateStructOrMap` (field_mapping.go:357).  The `Ptr` case of the
Go switch does `t = t.Elem()` and then falls through to the `Struct`
case, whose body returns `true` unconditionally — so every pointer type
passes, whatever it points to, and so does every map type, whatever its
key type. -/
def validateStructOrMap : GoType → Bool
  | .tMap _ _ => true
  | .tPtr _ => true
  | .tStruct _ => true
  | _ => false

/-- The pointer-dereference loop of `checkAndExtractFieldType`. -/
def derefTAll : GoType → GoType
  | .tPtr t => derefTAll t
  | t => t

/-- `checkAndExtractFieldType` (field_mapping.go:214): resolves the static
type of field `field` inside `typ` (the whole type when `field` is
empty); maps are checked for a `string` key before pointer dereference,
exactly as in the source. -/
def checkAndExtractFieldType (field : String) (typ : GoType) : Except MErr GoType :=
  if field = "" then .ok typ
  else
    match typ with
    | .tMap k e =>
      if GoType.beq k .tString then .ok e else .error (.typeNotStringKeyMap (.tMap k e))
    | t =>
      match derefTAll t with
      | .tStruct fs =>
        match FieldList.lookupT fs field with
        | none => .error (.typeNoField (.tStruct fs) field)
        | some (ex, fty) =>
          if ex then .ok fty else .error (.typeFieldUnexported (.tStruct fs) field)
      | other => .error (.typeNotStruct other)

/-- The three-way verdict `assignableType` of the repository. -/
inductive AssignableType : Type where
  | must : AssignableType
  | may : AssignableType
  | mustNot : AssignableType
deriving DecidableEq

/-- Modelled from the spec: `checkAssignable` is defined outside the two
source files.  Per spec §4.3 the verdict is `Always` when the source
type is statically assignable to the destination type, `Conditional`
when the destination is an open capability set (an interface) that the
source type — itself only known as an interface — may satisfy at run
time, and `Never` otherwise. -/
def checkAssignable (src dst : GoType) : AssignableType :=
  if assignableTo src dst then .must
  else if isIfaceKind dst && isIfaceKind src then .may
  else .mustNot

/-- One entry of the `fieldCheckers` map (field_mapping.go:372): the map
key (`mapping.to`) and the mapping the guard closure uses in its error
message.  The guard does NOT carry its own destination type: every guard
closure captures the one `successorFieldType` variable declared outside
the descriptor loop (field_mapping.go:386), so at run time all guards
read that shared variable's final, last-iteration value — it is part of
the returned handler (see `validateFieldMapping`), not of the entry. -/
structure FieldChecker : Type where
  key : String
  mapping : FieldMapping

/-- Go map assignment `fieldCheckers[mapping.to] = ...`: replace the
entry with the same key if present, otherwise add one. -/
def insertChecker : List FieldChecker → FieldChecker → List FieldChecker
  | [], c => [c]
  | c' :: rest, c => if c'.key = c.key then c :: rest else c' :: insertChecker rest c

/-- The descriptor loop of `validateFieldMapping` (field_mapping.go:390-418),
accumulating `fieldCheckers` and threading the mutable
`successorFieldType` variable of line 386 (a `var` outside the loop,
reassigned on every iteration at line 395; `none` is its initial `nil`).
On success it returns the accumulated checkers together with the
variable's final value — the value every guard closure will read when
invoked at run time, after the loop has finished. -/
def vfmLoop (pred succ : GoType) : List FieldMapping → List FieldChecker →
    Option GoType → Except MErr (List FieldChecker × Option GoType)
  | [], acc, sharedT => .ok (acc, sharedT)
  | m :: rest, acc, _ =>
    match checkAndExtractFieldType m.fromF pred with
    | .error e => .error (.staticCheckFail m e)
    | .ok predFieldType =>
      match checkAndExtractFieldType m.toF succ with
      | .error e => .error (.staticCheckFail m e)
      | .ok succFieldType =>
        match checkAssignable predFieldType succFieldType with
        | .mustNot => .error (.mustNotAssignable m predFieldType succFieldType)
        | .must => vfmLoop pred succ rest acc (some succFieldType)
        | .may => vfmLoop pred succ rest (insertChecker acc ⟨m.toF, m⟩)
            (some succFieldType)

/-- `validateFieldMapping` (field_mapping.go:371).  The returned
`Option (List FieldChecker × GoType)` models the `*handlerPair` result:
`none` is the `nil` handler pair of line 421; `some (cs, sharedT)` is
the handler pair whose `invoke`/`transform` close over the non-empty
checker set `cs` and over the shared `successorFieldType` variable,
whose value once the guards can run is its final value `sharedT` (see
`checkerInvoke`).  A non-empty checker set means the loop ran at least
once and assigned the variable, so the `(cs, none)` combination is
unreachable; it is mapped to the `nil` handler. -/
def validateFieldMapping (pred succ : GoType) (mappings : List FieldMapping) :
    Except MErr (Option (List FieldChecker × GoType)) :=
  if isFromAll mappings && isToAll mappings then
    .error .degenerateMapping
  else if !isToAll mappings && !validateStructOrMap succ then
    .error (.succNotStructOrMap succ)
  else if !isFromAll mappings && !validateStructOrMap pred then
    .error (.predNotStructOrMap pred)
  else
    match vfmLoop pred succ mappings [] none with
    | .error e => .error e
    | .ok ([], _) => .ok none
    | .ok (cs, some t) => .ok (some (cs, t))
    | .ok (_, none) => .ok none

/-- The guard closure body (field_mapping.go:404-410): accepts the value
iff its dynamic type is assignable to the current value of the captured
`successorFieldType` variable, passed here as `dstT`. -/
def guardCheck (m : FieldMapping) (dstT : GoType) (a : GoValue) : Except MErr GoValue :=
  if assignableTo (typeOf a) dstT then .ok a
  else .error (.runtimeCheckFail m (typeOf a) dstT)

/-- The `invoke` of the handler pair returned by `validateFieldMapping`
(field_mapping.go:424-436): for each guarded field name present in the
incoming keyed mapping, run its guard and store the result back; return
the mapping.  All guards check against the same `sharedT` — the final
value of the `successorFieldType` variable they jointly captured. -/
def checkerInvoke (cs : List FieldChecker) (sharedT : GoType)
    (mValue : List (String × GoValue)) :
    Except MErr (List (String × GoValue)) :=
  match cs with
  | [] => .ok mValue
  | c :: rest =>
    match lookupKV mValue c.key with
    | none => checkerInvoke rest sharedT mValue
    | some a =>
      match guardCheck c.mapping sharedT a with
      | .error e => .error e
      | .ok a2 => checkerInvoke rest sharedT (updateKV mValue c.key a2)

/-! ### Workflow edge assembly (`addEdgesWithMapping`, workflow.go:327-398)

The underlying graph's `AddEdge` and `addEdgeWithMappings` are not part
of the two source files; they are abstracted as function parameters
returning `none` on success, so every theorem below holds for every
possible behaviour of the graph collaborator. -/

/-- `Mapping` (workflow.go:36); field names as in `FieldMapping`. -/
structure Mapping : Type where
  fromNodeKey : String
  fromF : String
  toF : String
deriving DecidableEq

/-- `Mapping.empty` (workflow.go:42). -/
def Mapping.emptyM (m : Mapping) : Bool := m.fromF = "" && m.toF = ""

/-- The structural errors of `addEdgesWithMapping`, plus `graphErr` to
stand for whatever error the abstracted graph collaborator returns. -/
inductive WErr : Type where
  | nodeNoInput (node : String)              -- workflow.go:332
  | multipleToAll (node : String)            -- workflow.go:342 / :375
  | dupTo (node : String) (field : String)   -- workflow.go:346 / :379
  | endNoInput                               -- workflow.go:366
  | graphErr (msg : String)
deriving DecidableEq

/-- The `END` node key (a constant of the graph package, outside the two
source files; its concrete value is irrelevant to the theorems). -/
def END : String := "end"

/-- The `toSet` loop of `addEdgesWithMapping` (workflow.go:338-352 and
:371-385): `n` is the total number of incoming mappings of the node,
`seen` the destination fields collected so far. -/
def checkInputsLoop (node : String) (n : Nat) :
    List Mapping → List String → Option WErr
  | [], _ => none
  | i :: rest, seen =>
    if i.toF = "" ∧ 1 < n then some (.multipleToAll node)
    else if i.toF ∈ seen then some (.dupTo node i.toF)
    else checkInputsLoop node n rest (i.toF :: seen)

/-- `fromNode2Mappings` grouping (workflow.go:350-352), in first-occurrence
order. -/
def groupByFrom (inputs : List Mapping) : List (String × List Mapping) :=
  inputs.foldl (fun acc i => addGroup acc i.fromNodeKey i) []

/-- The edge-emission loop (workflow.go:354-362): a group whose first
mapping is empty/empty becomes a plain edge, any other group a
field-mapping edge. -/
def runGroups (addE : String → String → Option WErr)
    (addEM : String → String → List Mapping → Option WErr)
    (toNode : String) : List (String × List Mapping) → Option WErr
  | [] => none
  | (fromNode, ms) :: rest =>
    match ms with
    | [] => runGroups addE addEM toNode rest
    | m0 :: _ =>
      match (if m0.emptyM then addE fromNode toNode else addEM fromNode toNode ms) with
      | some e => some e
      | none => runGroups addE addEM toNode rest

/-- Processing of one workflow node (workflow.go:329-363). -/
def processNode (addE : String → String → Option WErr)
    (addEM : String → String → List Mapping → Option WErr)
    (node : String) (inputs : List Mapping) : Option WErr :=
  match inputs with
  | [] => some (.nodeNoInput node)
  | _ =>
    match checkInputsLoop node inputs.length inputs [] with
    | some e => some e
    | none => runGroups addE addEM node (groupByFrom inputs)

/-- `addEdgesWithMapping` (workflow.go:327): every declared node in turn,
then the virtual `END` node from the workflow's end mappings. -/
def addEdgesWithMapping (addE : String → String → Option WErr)
    (addEM : String → String → List Mapping → Option WErr) :
    List (String × List Mapping) → List Mapping → Option WErr
  | [], endM =>
    match endM with
    | [] => some .endNoInput
    | _ =>
      match checkInputsLoop END endM.length endM [] with
      | some e => some e
      | none => runGroups addE addEM END (groupByFrom endM)
  | (key, inputs) :: rest, endM =>
    match processNode addE addEM key inputs with
    | some e => some e
    | none => addEdgesWithMapping addE addEM rest endM

/-! ### Auxiliary predicates used by the theorem statements -/

/-- Every struct field holds a value whose dynamic type is assignable to
the field's declared type, and every map entry one assignable to the
map's element type (the invariant Go's type system maintains for every
value it can construct). -/
def wellTypedFields : VFields → Bool
  | .nil => true
  | .cons _ _ t v r => assignableTo (typeOf v) t && wellTypedFields r

def wellTypedEntries (eT : GoType) : Entries → Bool
  | .nil => true
  | .cons _ v r => assignableTo (typeOf v) eT && wellTypedEntries eT r

def wellTyped : GoValue → Bool
  | .vStruct fs => wellTypedFields fs
  | .vMap _ eT es => wellTypedEntries eT es
  | _ => true

/-- Read a struct field's or map key's current value (specification-side
observer for the round-trip statement). -/
def getFieldOrKey : GoValue → String → Option GoValue
  | .vStruct fs, f =>
    match VFields.lookupF fs f with
    | some (_, _, v) => some v
    | none => none
  | .vMap _ _ es, k => Entries.lookupE es k
  | _, _ => none

/-- Values that reach the `default` branch of `takeOne`'s kind switch:
neither struct, nor map, nor pointer (nor an untyped nil). -/
def isTakeOneDefaultShape : GoValue → Bool
  | .vString _ => true
  | .vInt _ => true
  | .vBool _ => true
  | .vSlice _ _ => true
  | _ => false

/-- The structural illegality conditions of one node's incoming mapping
list, as claim C6 states them: no incoming descriptor at all, a
whole-input descriptor next to others, or two descriptors with the same
destination field. -/
def badMappingList (ins : List Mapping) : Prop :=
  ins = [] ∨ (∃ i ∈ ins, i.toF = "" ∧ 1 < ins.length) ∨
    ¬ (ins.map (fun i => i.toF)).Nodup

/-! ### C5 — the degenerate-mapping rejection -/

lemma isFromAll_of_mem {ms : List FieldMapping} (h : ∃ m ∈ ms, m.fromF = "") :
    isFromAll ms = true := by
  induction ms with
  | nil => simp at h
  | cons m rest ih =>
    rcases h with ⟨x, hx, hx2⟩
    rcases List.mem_cons.mp hx with rfl | hmem
    · simp [isFromAll, hx2]
    · by_cases hm : m.fromF = ""
      · simp [isFromAll, hm]
      · simpa [isFromAll, hm] using ih ⟨x, hmem, hx2⟩

lemma isToAll_of_mem {ms : List FieldMapping} (h : ∃ m ∈ ms, m.toF = "") :
    isToAll ms = true := by
  induction ms with
  | nil => simp at h
  | cons m rest ih =>
    rcases h with ⟨x, hx, hx2⟩
    rcases List.mem_cons.mp hx with rfl | hmem
    · simp [isToAll, hx2]
    · by_cases hm : m.toF = ""
      · simp [isToAll, hm]
      · simpa [isToAll, hm] using ih ⟨x, hmem, hx2⟩

/-- C5: a mapping set containing one descriptor with empty `from` and one
(possibly different) descriptor with empty `to` is rejected with the
degenerate-mapping error; the rejection is independent of the
predecessor and successor types — the conclusion holds for arbitrary
`pred`/`succ`, so no field-type resolution or assignability
classification takes part in it. -/
theorem validateFieldMapping_degenerate (pred succ : GoType) (ms : List FieldMapping)
    (hfrom : ∃ m ∈ ms, m.fromF = "") (hto : ∃ m ∈ ms, m.toF = "") :
    validateFieldMapping pred succ ms = .error .degenerateMapping := by
  unfold validateFieldMapping
  simp [isFromAll_of_mem hfrom, isToAll_of_mem hto]

theorem validateFieldMapping_degenerate_witness :
    (∃ m ∈ [(⟨"a", "", "x"⟩ : FieldMapping), ⟨"b", "y", ""⟩], m.fromF = "") ∧
    (∃ m ∈ [(⟨"a", "", "x"⟩ : FieldMapping), ⟨"b", "y", ""⟩], m.toF = "") ∧
    validateFieldMapping .tInt .tInt [⟨"a", "", "x"⟩, ⟨"b", "y", ""⟩] =
      .error .degenerateMapping :=
  ⟨⟨⟨"a", "", "x"⟩, by simp, rfl⟩, ⟨⟨"b", "y", ""⟩, by simp, rfl⟩,
    validateFieldMapping_degenerate .tInt .tInt _
      ⟨⟨"a", "", "x"⟩, by simp, rfl⟩ ⟨⟨"b", "y", ""⟩, by simp, rfl⟩⟩

/-! ### C8 — injection atomicity -/

/-- C8: whenever `assignOne` reports an error, the destination it returns
is the original one — every error path of the source returns `dest`
before any `Set`/`SetMapIndex` takes place. -/
theorem assignOne_error_preserves_dest (dest taken : GoValue) (toField : String)
    (d : GoValue) (e : MErr) (h : assignOne dest taken toField = (d, some e)) :
    d = dest := by
  unfold assignOne at h
  by_cases ht : toField = "" <;> simp [ht] at h
  · by_cases ha : assignableTo (typeOf taken) (typeOf dest) <;> simp [ha] at h
    exact h.1.symm
  · cases dest with
    | vMap kT eT es =>
      cases hc : checkAndExtractToMapKey toField (.vMap kT eT es) taken with
      | none => simp [hc] at h
      | some e0 => simp [hc] at h; exact h.1.symm
    | vString s =>
      cases hc : checkAndExtractToField toField (.vString s) taken with
      | none => simp [hc] at h
      | some e0 => simp [hc] at h; exact h.1.symm
    | vInt n =>
      cases hc : checkAndExtractToField toField (.vInt n) taken with
      | none => simp [hc] at h
      | some e0 => simp [hc] at h; exact h.1.symm
    | vBool b =>
      cases hc : checkAndExtractToField toField (.vBool b) taken with
      | none => simp [hc] at h
      | some e0 => simp [hc] at h; exact h.1.symm
    | vStruct fs =>
      cases hc : checkAndExtractToField toField (.vStruct fs) taken with
      | none => simp [hc] at h
      | some e0 => simp [hc] at h; exact h.1.symm
    | vPtr v =>
      cases hc : checkAndExtractToField toField (.vPtr v) taken with
      | none => simp [hc] at h
      | some e0 => simp [hc] at h; exact h.1.symm
    | vSlice t es =>
      cases hc : checkAndExtractToField toField (.vSlice t es) taken with
      | none => simp [hc] at h
      | some e0 => simp [hc] at h; exact h.1.symm
    | vNil t =>
      cases hc : checkAndExtractToField toField (.vNil t) taken with
      | none => simp [hc] at h
      | some e0 => simp [hc] at h; exact h.1.symm

theorem assignOne_error_preserves_dest_witness :
    assignOne (.vInt 3) (.vString "s") "" =
      ((.vInt 3 : GoValue), some (.entireMismatch .tString .tInt)) ∧
    ((.vInt 3 : GoValue) = .vInt 3) :=
  ⟨rfl, assignOne_error_preserves_dest (.vInt 3) (.vString "s") "" (.vInt 3)
    (.entireMismatch .tString .tInt) rfl⟩

/-! ### C1 — the whole-input shortcut of `convertTo` -/

/-- C1 counterexample: the claim says the whole-input shortcut is taken
only when the empty field name is the mapping's only entry and that no
other entry's value is silently dropped.  On the input
`{"" ↦ 1, "x" ↦ 2}` the source takes the shortcut anyway (it only tests
membership of `""`, field_mapping.go:114) and returns `1`: the value `2`
stored under `"x"` is gone from the result. -/
theorem convertTo_shortcut_not_exclusive :
    convertTo .tInt [("", .vInt 1), ("x", .vInt 2)] = .ok (.vInt 1) := by rfl

/-- C1 as amended: `convertTo` takes the whole-input shortcut whenever
the empty field name is present — whatever other entries exist — and
returns the value stored under it (provided the type assertion to `T`
holds); entries under other keys do not reach the result. -/
theorem convertTo_whole_entry_shortcut (T : GoType) (m : List (String × GoValue))
    (v : GoValue) (hl : lookupKV m "" = some v)
    (ha : assignableTo (typeOf v) T = true) :
    convertTo T m = .ok v := by
  unfold convertTo
  rw [hl]
  simp [ha]

theorem convertTo_whole_entry_shortcut_witness :
    lookupKV [("", .vInt 1), ("x", .vInt 2)] "" = some (.vInt 1) ∧
    assignableTo (typeOf (.vInt 1)) .tInt = true ∧
    convertTo .tInt [("", .vInt 1), ("x", .vInt 2)] = .ok (.vInt 1) :=
  ⟨rfl, rfl, convertTo_whole_entry_shortcut .tInt _ (.vInt 1) rfl rfl⟩

/-! ### C9 — unsupported extraction shapes -/

/-- C9 counterexample: on a pointer to a scalar, `takeOne` does not
return the unsupported-shape error — the `Ptr` case of its switch
dereferences and falls through into the `Struct` case, handing the
scalar to `reflect.Value.FieldByName`, which panics on non-struct
values. -/
theorem takeOne_ptr_to_scalar_crashes :
    takeOne (.vPtr (.vInt 0)) "x" = .crash "reflect: FieldByName of non-struct value" := by
  rfl

/-- C9 as amended: for every value whose kind is neither struct, nor map,
nor pointer (a scalar or a sequence) and every non-empty field name,
`takeOne` returns the descriptive unsupported-shape error naming the
input's type; a pointer to a non-struct instead panics inside
`reflect.FieldByName` (see the counterexample). -/
theorem takeOne_unsupported_shape (v : GoValue) (f : String) (hf : f ≠ "")
    (hs : isTakeOneDefaultShape v = true) :
    takeOne v f = .fail (.unsupportedInputShape (typeOf v)) := by
  cases v <;> simp_all [isTakeOneDefaultShape, takeOne, hf]

theorem takeOne_unsupported_shape_witness :
    (("f" : String) ≠ "") ∧ isTakeOneDefaultShape (.vInt 7) = true ∧
    takeOne (.vInt 7) "f" = .fail (.unsupportedInputShape .tInt) :=
  ⟨by decide, rfl, takeOne_unsupported_shape (.vInt 7) "f" (by decide) rfl⟩

/-! ### C2 — the successor-shape rejection -/

lemma vfmLoop_ne_succErr (pred succ : GoType) :
    ∀ (ms : List FieldMapping) (acc : List FieldChecker) (st : Option GoType)
    (t : GoType), vfmLoop pred succ ms acc st ≠ .error (.succNotStructOrMap t) := by
  intro ms
  induction ms with
  | nil => intro acc st t h; simp [vfmLoop] at h
  | cons m rest ih =>
    intro acc st t h
    unfold vfmLoop at h
    split at h
    · simp at h
    · split at h
      · simp at h
      · split at h
        · simp at h
        · exact ih acc _ t h
        · exact ih _ _ t h

/-- C2 counterexample: the claim says a mapping set with *no* empty-`to`
descriptor is never rejected by the successor-shape check; but the
source's guard (field_mapping.go:377) is `!isToAll(mappings)`, so it is
exactly such sets that trigger it.  One field-to-field descriptor with a
scalar successor type is rejected with the unconstructible-successor
error. -/
theorem validateFieldMapping_rejects_no_empty_to :
    validateFieldMapping (.tStruct (.cons "X" true .tInt .nil)) .tInt
      [⟨"n", "X", "y"⟩] = .error (.succNotStructOrMap .tInt) := by rfl

/-- C2 as amended: `validateFieldMapping` fails with the
unconstructible-successor error exactly when *no* descriptor's `to` is
empty and the successor type's kind is neither map, nor pointer, nor
struct (the polarity of the claim is inverted: an empty-`to` descriptor
means the whole input arrives ready-made and nothing need be
constructed, while an all-specific-fields mapping set forces the engine
to synthesize the successor input). -/
theorem validateFieldMapping_succ_shape_iff (pred succ : GoType)
    (ms : List FieldMapping) :
    validateFieldMapping pred succ ms = .error (.succNotStructOrMap succ) ↔
      (isToAll ms = false ∧ validateStructOrMap succ = false) := by
  constructor
  · intro h
    unfold validateFieldMapping at h
    split at h
    · simp at h
    · split at h
      · next hc2 =>
        rcases Bool.and_eq_true_iff.mp hc2 with ⟨hl, hr⟩
        exact ⟨by simpa using hl, by simpa using hr⟩
      · split at h
        · simp at h
        · cases hl : vfmLoop pred succ ms [] none with
          | error e =>
            rw [hl] at h
            dsimp only at h
            have he : e = MErr.succNotStructOrMap succ := by injection h
            subst he
            exact absurd hl (vfmLoop_ne_succErr pred succ ms [] none succ)
          | ok p =>
            obtain ⟨cs2, st2⟩ := p
            rw [hl] at h
            cases cs2 with
            | nil => simp at h
            | cons c0 rest0 =>
              cases st2 with
              | none => simp at h
              | some t0 => simp at h
  · rintro ⟨h1, h2⟩
    unfold validateFieldMapping
    simp [h1, h2]

/-! ### C3 — all-`Always` mapping sets -/

lemma vfmLoop_all_must (pred succ : GoType) :
    ∀ (ms : List FieldMapping) (acc : List FieldChecker) (st : Option GoType),
    (∀ m ∈ ms, ∃ pt st2, checkAndExtractFieldType m.fromF pred = .ok pt ∧
        checkAndExtractFieldType m.toF succ = .ok st2 ∧
        checkAssignable pt st2 = .must) →
    ∃ stF, vfmLoop pred succ ms acc st = .ok (acc, stF) := by
  intro ms
  induction ms with
  | nil => intro acc st _; exact ⟨st, rfl⟩
  | cons m rest ih =>
    intro acc st h
    obtain ⟨pt, st2, h1, h2, h3⟩ := h m (by simp)
    unfold vfmLoop
    simp only [h1, h2, h3]
    exact ih acc (some st2) (fun x hx => h x (by simp [hx]))

/-- C3 counterexample: a structurally legal, everywhere-`Always` mapping
set for which `validateFieldMapping` succeeds with a `nil` handler pair
(`none`), not the non-null no-op handler pair the claim describes
(field_mapping.go:420-422 returns `nil, nil` when no guard was
produced). -/
theorem validateFieldMapping_all_must_example :
    validateFieldMapping (.tStruct (.cons "X" true .tInt .nil)) (.tMap .tString .tInt)
      [⟨"n", "X", "y"⟩] = .ok none := by rfl

/-- C3 as amended: for every predecessor type, successor type and
structurally legal mapping set whose every resolved field pairing is
`Always`-assignable, `validateFieldMapping` succeeds and returns *no*
handler pair (`nil`) — the pure-static edge needs no runtime behaviour,
and pass-through is represented by the absence of a handler rather than
by a non-null no-op handler. -/
theorem validateFieldMapping_all_must_nil_handler (pred succ : GoType)
    (ms : List FieldMapping)
    (h1 : (isFromAll ms && isToAll ms) = false)
    (h2 : (!isToAll ms && !validateStructOrMap succ) = false)
    (h3 : (!isFromAll ms && !validateStructOrMap pred) = false)
    (hall : ∀ m ∈ ms, ∃ pt st, checkAndExtractFieldType m.fromF pred = .ok pt ∧
        checkAndExtractFieldType m.toF succ = .ok st ∧ checkAssignable pt st = .must) :
    validateFieldMapping pred succ ms = .ok none := by
  obtain ⟨stF, hF⟩ := vfmLoop_all_must pred succ ms [] none hall
  unfold validateFieldMapping
  rw [hF]
  simp [h1, h2, h3]

theorem validateFieldMapping_all_must_nil_handler_witness :
    ((isFromAll [(⟨"n", "X", "y"⟩ : FieldMapping)] &&
        isToAll [(⟨"n", "X", "y"⟩ : FieldMapping)]) = false) ∧
    ((!isToAll [(⟨"n", "X", "y"⟩ : FieldMapping)] &&
        !validateStructOrMap (.tMap .tString .tInt)) = false) ∧
    ((!isFromAll [(⟨"n", "X", "y"⟩ : FieldMapping)] &&
        !validateStructOrMap (.tStruct (.cons "X" true .tInt .nil))) = false) ∧
    validateFieldMapping (.tStruct (.cons "X" true .tInt .nil)) (.tMap .tString .tInt)
      [⟨"n", "X", "y"⟩] = .ok none :=
  ⟨rfl, rfl, rfl,
    validateFieldMapping_all_must_nil_handler _ _ _ rfl rfl rfl
      (fun m hm => by
        simp only [List.mem_singleton] at hm
        subst hm
        exact ⟨.tInt, .tInt, rfl, rfl, rfl⟩)⟩

/-! ### C4 — the runtime guard handler -/

lemma mem_insertChecker {acc : List FieldChecker} {c c' : FieldChecker}
    (h : c' ∈ insertChecker acc c) : c' ∈ acc ∨ c' = c := by
  induction acc with
  | nil => simp [insertChecker] at h; right; exact h
  | cons a rest ih =>
    unfold insertChecker at h
    by_cases hk : a.key = c.key
    · simp [hk] at h
      rcases h with rfl | hmem
      · right; rfl
      · left; exact List.mem_cons_of_mem a hmem
    · simp [hk] at h
      rcases h with rfl | hmem
      · left; exact List.mem_cons_self _ rest
      · rcases ih hmem with hl | hr
        · left; exact List.mem_cons_of_mem a hl
        · right; exact hr

lemma vfmLoop_keys (pred succ : GoType) :
    ∀ (ms : List FieldMapping) (acc cs : List FieldChecker)
    (st stF : Option GoType), vfmLoop pred succ ms acc st = .ok (cs, stF) →
    (∀ c ∈ acc, c.key = c.mapping.toF) →
    ∀ c ∈ cs, c.key = c.mapping.toF := by
  intro ms
  induction ms with
  | nil =>
    intro acc cs st stF h hacc
    simp only [vfmLoop, Except.ok.injEq, Prod.mk.injEq] at h
    exact h.1 ▸ hacc
  | cons m rest ih =>
    intro acc cs st stF h hacc
    unfold vfmLoop at h
    split at h
    · simp at h
    · split at h
      · simp at h
      · split at h
        · simp at h
        · exact ih acc cs _ stF h hacc
        · refine ih _ cs _ stF h ?_
          intro c hc
          rcases mem_insertChecker hc with hmem | rfl
          · exact hacc c hmem
          · rfl

lemma vfmLoop_final (pred succ : GoType) :
    ∀ (ms : List FieldMapping) (acc cs : List FieldChecker)
    (st stF : Option GoType), vfmLoop pred succ ms acc st = .ok (cs, stF) →
    (ms = [] ∧ stF = st) ∨
      (∃ mL t, ms.getLast? = some mL ∧
        checkAndExtractFieldType mL.toF succ = .ok t ∧ stF = some t) := by
  intro ms
  induction ms with
  | nil =>
    intro acc cs st stF h
    left
    refine ⟨rfl, ?_⟩
    simp only [vfmLoop, Except.ok.injEq, Prod.mk.injEq] at h
    exact h.2.symm
  | cons m rest ih =>
    intro acc cs st stF h
    right
    unfold vfmLoop at h
    split at h
    · simp at h
    · split at h
      · simp at h
      · next st2 hst2 =>
        split at h
        · simp at h
        · rcases ih acc cs (some st2) stF h with ⟨hrest, hstF⟩ | ⟨mL, t, hL, hT, hF⟩
          · subst hrest
            exact ⟨m, st2, by simp, hst2, hstF⟩
          · refine ⟨mL, t, ?_, hT, hF⟩
            cases rest with
            | nil => simp at hL
            | cons b l => rw [List.getLast?_cons_cons]; exact hL
        · rcases ih _ cs (some st2) stF h with ⟨hrest, hstF⟩ | ⟨mL, t, hL, hT, hF⟩
          · subst hrest
            exact ⟨m, st2, by simp, hst2, hstF⟩
          · refine ⟨mL, t, ?_, hT, hF⟩
            cases rest with
            | nil => simp at hL
            | cons b l => rw [List.getLast?_cons_cons]; exact hL

lemma validateFieldMapping_some_inv {pred succ : GoType} {ms : List FieldMapping}
    {cs : List FieldChecker} {sharedT : GoType}
    (h : validateFieldMapping pred succ ms = .ok (some (cs, sharedT))) :
    vfmLoop pred succ ms [] none = .ok (cs, some sharedT) ∧ cs ≠ [] := by
  unfold validateFieldMapping at h
  split at h
  · simp at h
  · split at h
    · simp at h
    · split at h
      · simp at h
      · cases hl : vfmLoop pred succ ms [] none with
        | error e => rw [hl] at h; dsimp only at h; simp at h
        | ok p =>
          obtain ⟨cs2, st2⟩ := p
          rw [hl] at h
          cases cs2 with
          | nil => simp at h
          | cons c0 rest0 =>
            cases st2 with
            | none => simp at h
            | some t0 =>
              simp only [Except.ok.injEq, Option.some.injEq, Prod.mk.injEq] at h
              obtain ⟨hcs, ht⟩ := h
              subst hcs
              subst ht
              exact ⟨rfl, by simp⟩

lemma updateKV_self : ∀ (mv : List (String × GoValue)) (k : String) (v : GoValue),
    lookupKV mv k = some v → updateKV mv k v = mv := by
  intro mv
  induction mv with
  | nil => intro k v h; simp [lookupKV] at h
  | cons p rest ih =>
    intro k v h
    obtain ⟨pk, pv⟩ := p
    unfold lookupKV at h
    unfold updateKV
    by_cases hk : pk = k
    · simp [hk] at h ⊢
      exact h.symm
    · simp [hk] at h ⊢
      exact ih k v h

lemma checkerInvoke_ok_or_err : ∀ (cs : List FieldChecker) (sharedT : GoType)
    (mv : List (String × GoValue)),
    checkerInvoke cs sharedT mv = .ok mv ∨
      ∃ e, checkerInvoke cs sharedT mv = .error e := by
  intro cs
  induction cs with
  | nil => intro sharedT mv; left; rfl
  | cons c rest ih =>
    intro sharedT mv
    unfold checkerInvoke
    cases hl : lookupKV mv c.key with
    | none => exact ih sharedT mv
    | some a =>
      unfold guardCheck
      by_cases hass : assignableTo (typeOf a) sharedT
      · simp only [hass, if_true]
        rw [updateKV_self mv c.key a hl]
        exact ih sharedT mv
      · simp only [hass, Bool.false_eq_true, if_false]
        right
        exact ⟨.runtimeCheckFail c.mapping (typeOf a) sharedT, rfl⟩

lemma checkerInvoke_error_iff : ∀ (cs : List FieldChecker) (sharedT : GoType)
    (mv : List (String × GoValue)),
    (∃ e, checkerInvoke cs sharedT mv = .error e) ↔
      ∃ c ∈ cs, ∃ a, lookupKV mv c.key = some a ∧
        assignableTo (typeOf a) sharedT = false := by
  intro cs
  induction cs with
  | nil =>
    intro sharedT mv
    constructor
    · rintro ⟨e, he⟩; simp [checkerInvoke] at he
    · rintro ⟨c, hc, _⟩; simp at hc
  | cons c rest ih =>
    intro sharedT mv
    unfold checkerInvoke
    cases hl : lookupKV mv c.key with
    | none =>
      constructor
      · intro h
        obtain ⟨x, hx, ha⟩ := (ih sharedT mv).mp h
        exact ⟨x, List.mem_cons_of_mem c hx, ha⟩
      · rintro ⟨x, hx, a, hla, hass⟩
        rcases List.mem_cons.mp hx with rfl | hmem
        · rw [hl] at hla; simp at hla
        · exact (ih sharedT mv).mpr ⟨x, hmem, a, hla, hass⟩
    | some a =>
      unfold guardCheck
      by_cases hass : assignableTo (typeOf a) sharedT
      · simp only [hass, if_true]
        rw [updateKV_self mv c.key a hl]
        constructor
        · intro h
          obtain ⟨x, hx, ha⟩ := (ih sharedT mv).mp h
          exact ⟨x, List.mem_cons_of_mem c hx, ha⟩
        · rintro ⟨x, hx, a', hla', hass'⟩
          rcases List.mem_cons.mp hx with rfl | hmem
          · rw [hl] at hla'
            have : a = a' := by injection hla'
            subst this
            rw [hass] at hass'
            simp at hass'
          · exact (ih sharedT mv).mpr ⟨x, hmem, a', hla', hass'⟩
      · simp only [hass, Bool.false_eq_true, if_false]
        constructor
        · intro _
          exact ⟨c, List.mem_cons_self c rest, a, hl, by simpa using hass⟩
        · intro _
          exact ⟨.runtimeCheckFail c.mapping (typeOf a) sharedT, rfl⟩

/-- C4 counterexample: the claim says each guard errs exactly when the
value's dynamic type is not assignable to *that* destination field's
static type.  But the guard closures share the single
`successorFieldType` variable declared outside the loop
(field_mapping.go:386) and read its final value at run time.  With
`pred = struct{A any; B any}`, `succ = struct{X Iface; Y any}` and
mappings `A→X` (conditional, guard keyed "X") then `B→Y` (always, no
guard), the loop leaves the shared variable at `Y`'s type `any`, so the
"X" guard accepts a string — whose dynamic type is *not* assignable to
`X`'s static interface type, as the second and third conjuncts
demonstrate — and `invoke` succeeds instead of returning an error. -/
theorem validateFieldMapping_guard_uses_last_type :
    validateFieldMapping
        (.tStruct (.cons "A" true .tAny (.cons "B" true .tAny .nil)))
        (.tStruct (.cons "X" true (.tIface (.cons .tInt .nil))
          (.cons "Y" true .tAny .nil)))
        [⟨"n", "A", "X"⟩, ⟨"n", "B", "Y"⟩] =
      .ok (some ([⟨"X", ⟨"n", "A", "X"⟩⟩], .tAny)) ∧
    checkAndExtractFieldType "X"
        (.tStruct (.cons "X" true (.tIface (.cons .tInt .nil))
          (.cons "Y" true .tAny .nil))) = .ok (.tIface (.cons .tInt .nil)) ∧
    assignableTo (typeOf (.vString "s")) (.tIface (.cons .tInt .nil)) = false ∧
    checkerInvoke [⟨"X", ⟨"n", "A", "X"⟩⟩] .tAny [("X", .vString "s")] =
      .ok [("X", .vString "s")] :=
  ⟨rfl, rfl, rfl, rfl⟩

/-- C4 as amended: when `validateFieldMapping` succeeds with a handler
(at least one conditionally assignable pairing), the checker set is
non-empty and keyed by destination field names, but all guards share the
one `successorFieldType` variable, whose run-time value is the *last*
mapping's resolved destination field type `sharedT`; `invoke` on a keyed
mapping then errors exactly when some guarded field name present in the
mapping holds a value whose dynamic type is not assignable to that
shared last-resolved type — not to the guarded field's own type;
guarded names absent from the mapping are skipped, unguarded entries are
untouched, and a successful `invoke` returns the mapping unchanged. -/
theorem validateFieldMapping_conditional_guards (pred succ : GoType)
    (ms : List FieldMapping) (cs : List FieldChecker) (sharedT : GoType)
    (h : validateFieldMapping pred succ ms = .ok (some (cs, sharedT))) :
    cs ≠ [] ∧
    (∀ c ∈ cs, c.key = c.mapping.toF) ∧
    (∃ mL, ms.getLast? = some mL ∧
      checkAndExtractFieldType mL.toF succ = .ok sharedT) ∧
    ∀ mv : List (String × GoValue),
      ((∃ e, checkerInvoke cs sharedT mv = .error e) ↔
        ∃ c ∈ cs, ∃ a, lookupKV mv c.key = some a ∧
          assignableTo (typeOf a) sharedT = false) ∧
      (∀ r, checkerInvoke cs sharedT mv = .ok r → r = mv) := by
  obtain ⟨hloop, hne⟩ := validateFieldMapping_some_inv h
  refine ⟨hne, vfmLoop_keys pred succ ms [] cs none (some sharedT) hloop (by simp),
    ?_, ?_⟩
  · rcases vfmLoop_final pred succ ms [] cs none (some sharedT) hloop with
      ⟨_, hF⟩ | ⟨mL, t, hL, hT, hF⟩
    · simp at hF
    · have ht : t = sharedT := by
        simp only [Option.some.injEq] at hF
        exact hF.symm
      subst ht
      exact ⟨mL, hL, hT⟩
  · intro mv
    refine ⟨checkerInvoke_error_iff cs sharedT mv, ?_⟩
    intro r hr
    rcases checkerInvoke_ok_or_err cs sharedT mv with hok | ⟨e, herr⟩
    · rw [hok] at hr
      injection hr with h2
      exact h2.symm
    · rw [herr] at hr
      simp at hr

theorem validateFieldMapping_conditional_guards_witness :
    validateFieldMapping (.tStruct (.cons "X" true .tAny .nil))
      (.tMap .tString (.tIface (.cons .tInt .nil))) [⟨"n", "X", "y"⟩] =
      .ok (some ([⟨"y", ⟨"n", "X", "y"⟩⟩], .tIface (.cons .tInt .nil))) ∧
    ([(⟨"y", ⟨"n", "X", "y"⟩⟩ : FieldChecker)] ≠ [] ∧
    (∀ c ∈ [(⟨"y", ⟨"n", "X", "y"⟩⟩ : FieldChecker)], c.key = c.mapping.toF) ∧
    (∃ mL, [(⟨"n", "X", "y"⟩ : FieldMapping)].getLast? = some mL ∧
      checkAndExtractFieldType mL.toF (.tMap .tString (.tIface (.cons .tInt .nil))) =
        .ok (.tIface (.cons .tInt .nil))) ∧
    ∀ mv : List (String × GoValue),
      ((∃ e, checkerInvoke [(⟨"y", ⟨"n", "X", "y"⟩⟩ : FieldChecker)]
          (.tIface (.cons .tInt .nil)) mv = .error e) ↔
        ∃ c ∈ [(⟨"y", ⟨"n", "X", "y"⟩⟩ : FieldChecker)],
          ∃ a, lookupKV mv c.key = some a ∧
            assignableTo (typeOf a) (.tIface (.cons .tInt .nil)) = false) ∧
      (∀ r, checkerInvoke [(⟨"y", ⟨"n", "X", "y"⟩⟩ : FieldChecker)]
          (.tIface (.cons .tInt .nil)) mv = .ok r → r = mv)) :=
  ⟨rfl, validateFieldMapping_conditional_guards
    (.tStruct (.cons "X" true .tAny .nil))
    (.tMap .tString (.tIface (.cons .tInt .nil))) [⟨"n", "X", "y"⟩]
    [⟨"y", ⟨"n", "X", "y"⟩⟩] (.tIface (.cons .tInt .nil)) rfl⟩

/-! ### C10 — the merge branch is unreachable from `convertTo` -/

lemma addGroup_not_mem {α : Type} : ∀ (acc : List (String × List α)) (k : String) (v : α),
    k ∉ acc.map Prod.fst → addGroup acc k v = acc ++ [(k, [v])] := by
  intro acc
  induction acc with
  | nil => intro k v _; rfl
  | cons p rest ih =>
    intro k v h
    obtain ⟨pk, pvs⟩ := p
    simp only [List.map_cons, List.mem_cons, not_or] at h
    unfold addGroup
    rw [if_neg (fun he => h.1 he.symm)]
    rw [ih k v h.2]
    simp

lemma foldl_groups_singleton :
    ∀ (l : List (String × GoValue)) (acc : List (String × List GoValue)),
    (∀ p ∈ acc, ∃ v, p.2 = [v]) →
    (∀ k, k ∈ l.map Prod.fst → k ∉ acc.map Prod.fst) →
    (l.map Prod.fst).Nodup →
    ∀ p ∈ l.foldl (fun a kv => addGroup a kv.1 kv.2) acc, ∃ v, p.2 = [v] := by
  intro l
  induction l with
  | nil => intro acc hacc _ _ p hp; exact hacc p hp
  | cons kv rest ih =>
    intro acc hacc hdisj hnd p hp
    obtain ⟨k, v⟩ := kv
    simp only [List.foldl_cons] at hp
    rw [addGroup_not_mem acc k v (hdisj k (by simp))] at hp
    refine ih (acc ++ [(k, [v])]) ?_ ?_ ?_ p hp
    · intro q hq
      rcases List.mem_append.mp hq with hq1 | hq2
      · exact hacc q hq1
      · simp only [List.mem_singleton] at hq2
        subst hq2
        exact ⟨v, rfl⟩
    · intro k' hk'
      have h1 : k' ∉ acc.map Prod.fst := hdisj k' (by simp [hk'])
      have h2 : k' ≠ k := by
        intro hke
        simp only [List.map_cons, List.nodup_cons] at hnd
        exact hnd.1 (hke ▸ hk')
      simp [List.map_append, h1, h2]
    · exact (List.nodup_cons.mp (by simpa using hnd)).2

lemma groupByKey_singletons {m : List (String × GoValue)}
    (h : (m.map Prod.fst).Nodup) : ∀ p ∈ groupByKey m, ∃ v, p.2 = [v] :=
  foldl_groups_singleton m [] (by simp) (by simp) h

lemma assignLoop_no_fail : ∀ (gs : List (String × List GoValue)) (t : GoValue),
    (∀ p ∈ gs, ∃ v, p.2 = [v]) → ∀ e, assignLoop t gs ≠ .fail e := by
  intro gs
  induction gs with
  | nil => intro t _ e h; simp [assignLoop] at h
  | cons p rest ih =>
    intro t hall e h
    obtain ⟨fieldName, values⟩ := p
    obtain ⟨v, hv⟩ := hall (fieldName, values) (by simp)
    simp only at hv
    subst hv
    unfold assignLoop at h
    simp only [List.isEmpty_nil, if_true] at h
    cases ha : assignOne t v fieldName with
    | mk t2 err =>
      rw [ha] at h
      cases err with
      | none =>
        exact ih t2 (fun q hq => hall q (List.mem_cons_of_mem _ hq)) e h
      | some e0 => simp at h

/-- C10: a Go map has unique keys, so on every input whose key list is
duplicate-free (`Nodup`) each destination field accumulates exactly one
value in `field2Values`, the multi-value merge branch of `convertTo` is
never entered, and `convertTo` never returns the merge-failure error. -/
theorem convertTo_no_merge_error (T : GoType) (m : List (String × GoValue))
    (hnd : (m.map Prod.fst).Nodup) :
    ∀ f, convertTo T m ≠ .fail (.mergeFail f) := by
  intro f h
  unfold convertTo at h
  cases hl : lookupKV m "" with
  | some v =>
    rw [hl] at h
    by_cases hass : assignableTo (typeOf v) T <;> simp [hass] at h
  | none =>
    rw [hl] at h
    exact assignLoop_no_fail (groupByKey m) (zeroValue T)
      (groupByKey_singletons hnd) (.mergeFail f) h

theorem convertTo_no_merge_error_witness :
    ((([("x", GoValue.vInt 1), ("y", GoValue.vInt 2)]).map Prod.fst).Nodup) ∧
    ∀ f, convertTo (.tMap .tString .tInt) [("x", .vInt 1), ("y", .vInt 2)] ≠
      .fail (.mergeFail f) :=
  ⟨by simp, convertTo_no_merge_error (.tMap .tString .tInt)
    [("x", .vInt 1), ("y", .vInt 2)] (by simp)⟩

/-! ### C7 — extraction/injection round trip -/

def isStructOrMapValue : GoValue → Bool
  | .vStruct _ => true
  | .vMap _ _ _ => true
  | _ => false

lemma wellTypedFields_lookup : ∀ (fs : VFields) (f : String) (ex : Bool)
    (ty : GoType) (x : GoValue), wellTypedFields fs = true →
    VFields.lookupF fs f = some (ex, ty, x) → assignableTo (typeOf x) ty = true
  | .nil, f, ex, ty, x, _, hl => by simp [VFields.lookupF] at hl
  | .cons n e t v r, f, ex, ty, x, hw, hl => by
    rcases Bool.and_eq_true_iff.mp (by simpa [wellTypedFields] using hw)
      with ⟨hw1, hw2⟩
    unfold VFields.lookupF at hl
    by_cases hn : n = f
    · simp only [hn, if_true] at hl
      simp only [Option.some.injEq, Prod.mk.injEq] at hl
      rw [← hl.2.2, ← hl.2.1]
      exact hw1
    · simp only [hn, if_false] at hl
      exact wellTypedFields_lookup r f ex ty x hw2 hl

lemma wellTypedEntries_lookup : ∀ (es : Entries) (eT : GoType) (k : String)
    (x : GoValue), wellTypedEntries eT es = true →
    Entries.lookupE es k = some x → assignableTo (typeOf x) eT = true
  | .nil, eT, k, x, _, hl => by simp [Entries.lookupE] at hl
  | .cons k0 v0 r, eT, k, x, hw, hl => by
    rcases Bool.and_eq_true_iff.mp (by simpa [wellTypedEntries] using hw)
      with ⟨hw1, hw2⟩
    unfold Entries.lookupE at hl
    by_cases hk : k0 = k
    · simp only [hk, if_true, Option.some.injEq] at hl
      subst hl
      exact hw1
    · simp only [hk, if_false] at hl
      exact wellTypedEntries_lookup r eT k x hw2 hl

lemma zeroFields_lookup : ∀ (fs : VFields) (f : String) (ex : Bool)
    (ty : GoType) (x : GoValue), VFields.lookupF fs f = some (ex, ty, x) →
    VFields.lookupF (zeroFields (declOf fs)) f = some (ex, ty, zeroValue ty)
  | .nil, f, ex, ty, x, hl => by simp [VFields.lookupF] at hl
  | .cons n e t v r, f, ex, ty, x, hl => by
    unfold VFields.lookupF at hl
    show VFields.lookupF (zeroFields (.cons n e t (declOf r))) f = _
    unfold zeroFields VFields.lookupF
    by_cases hn : n = f
    · simp only [hn, if_true] at hl ⊢
      simp only [Option.some.injEq, Prod.mk.injEq] at hl
      rw [← hl.1, ← hl.2.1]
    · simp only [hn, if_false] at hl ⊢
      exact zeroFields_lookup r f ex ty x hl

lemma lookupF_setF : ∀ (fs : VFields) (f : String) (ex : Bool) (ty : GoType)
    (v x : GoValue), VFields.lookupF fs f = some (ex, ty, v) →
    VFields.lookupF (VFields.setF fs f x) f = some (ex, ty, x)
  | .nil, f, ex, ty, v, x, hl => by simp [VFields.lookupF] at hl
  | .cons n e t v0 r, f, ex, ty, v, x, hl => by
    unfold VFields.lookupF at hl
    unfold VFields.setF
    by_cases hn : n = f
    · rw [if_pos hn]
      simp only [hn, if_true] at hl
      simp only [Option.some.injEq, Prod.mk.injEq] at hl
      unfold VFields.lookupF
      rw [if_pos hn, hl.1, hl.2.1]
    · rw [if_neg hn]
      simp only [hn, if_false] at hl
      unfold VFields.lookupF
      rw [if_neg hn]
      exact lookupF_setF r f ex ty v x hl

lemma checkAndExtractToField_ok {f : String} {zf : VFields} {x zv : GoValue}
    {ty : GoType} (hz : VFields.lookupF zf f = some (true, ty, zv))
    (hass : assignableTo (typeOf x) ty = true) :
    checkAndExtractToField f (.vStruct zf) x = none := by
  unfold checkAndExtractToField
  have hd : derefAll (GoValue.vStruct zf) = .vStruct zf := rfl
  rw [hd]
  dsimp only
  rw [hz]
  simp [hass]

/-- C7: for every well-typed struct or string-keyed-map value `v` and
non-empty field name `f`, if `takeOne v f` extracts `x`, then injecting
`x` via `assignOne` into field `f` of a fresh zero-valued destination of
`v`'s own type succeeds, and the destination's field `f` afterwards
holds exactly the extracted value — which is exactly `v`'s field `f`.
(Well-typed: every stored value's dynamic type is assignable to its
field's/element's declared type — the invariant Go's type system
maintains for every value it can construct.) -/
theorem takeOne_assignOne_round_trip (v x : GoValue) (f : String)
    (hf : f ≠ "") (hw : wellTyped v = true) (hs : isStructOrMapValue v = true)
    (ht : takeOne v f = .ok x) :
    ∃ d, assignOne (zeroValue (typeOf v)) x f = (d, none) ∧
      getFieldOrKey d f = some x ∧ getFieldOrKey v f = some x := by
  cases v with
  | vStruct fs =>
    unfold takeOne at ht
    rw [if_neg hf] at ht
    unfold checkAndExtractFromField at ht
    dsimp only at ht
    cases hl : VFields.lookupF fs f with
    | none => rw [hl] at ht; simp at ht
    | some trip =>
      obtain ⟨ex, ty, xv⟩ := trip
      rw [hl] at ht
      cases ex with
      | false => simp at ht
      | true =>
        simp only [if_true] at ht
        have hx : xv = x := by
          have := ht
          simp only [GRes.ok.injEq] at this
          exact this
        subst hx
        have hz := zeroFields_lookup fs f true ty xv hl
        have hass := wellTypedFields_lookup fs f true ty xv
          (by simpa [wellTyped] using hw) hl
        refine ⟨.vStruct (VFields.setF (zeroFields (declOf fs)) f xv), ?_, ?_, ?_⟩
        · have h0 : zeroValue (typeOf (GoValue.vStruct fs)) =
            .vStruct (zeroFields (declOf fs)) := rfl
          rw [h0]
          unfold assignOne
          rw [if_neg hf]
          dsimp only
          rw [checkAndExtractToField_ok hz hass]
          rfl
        · unfold getFieldOrKey
          dsimp only
          rw [lookupF_setF (zeroFields (declOf fs)) f true ty (zeroValue ty) xv hz]
        · unfold getFieldOrKey
          dsimp only
          rw [hl]
  | vMap kT eT es =>
    unfold takeOne at ht
    rw [if_neg hf] at ht
    unfold checkAndExtractFromMapKey at ht
    dsimp only at ht
    by_cases hkT : assignableTo .tString kT = false
    · rw [if_pos hkT] at ht; simp at ht
    · rw [if_neg hkT] at ht
      cases hle : Entries.lookupE es f with
      | none => rw [hle] at ht; simp at ht
      | some xv =>
        rw [hle] at ht
        have hx : xv = x := by
          have := ht
          simp only [GRes.ok.injEq] at this
          exact this
        subst hx
        have hassE := wellTypedEntries_lookup es eT f xv
          (by simpa [wellTyped] using hw) hle
        refine ⟨.vMap kT eT (.cons f xv .nil), ?_, ?_, ?_⟩
        · have h0 : zeroValue (typeOf (GoValue.vMap kT eT es)) =
            .vMap kT eT .nil := rfl
          rw [h0]
          unfold assignOne
          rw [if_neg hf]
          unfold checkAndExtractToMapKey
          dsimp only
          rw [if_neg hkT]
          have hne : ¬ (assignableTo (typeOf xv) eT = false) := by simp [hassE]
          rw [if_neg hne]
          simp [Entries.setE]
        · unfold getFieldOrKey
          dsimp only
          simp [Entries.lookupE]
        · unfold getFieldOrKey
          dsimp only
          rw [hle]
  | vString s => simp [isStructOrMapValue] at hs
  | vInt n => simp [isStructOrMapValue] at hs
  | vBool b => simp [isStructOrMapValue] at hs
  | vPtr p => simp [isStructOrMapValue] at hs
  | vSlice t vs => simp [isStructOrMapValue] at hs
  | vNil t => simp [isStructOrMapValue] at hs

theorem takeOne_assignOne_round_trip_witness :
    (("X" : String) ≠ "") ∧
    wellTyped (.vStruct (.cons "X" true .tInt (.vInt 5) .nil)) = true ∧
    isStructOrMapValue (.vStruct (.cons "X" true .tInt (.vInt 5) .nil)) = true ∧
    takeOne (.vStruct (.cons "X" true .tInt (.vInt 5) .nil)) "X" = .ok (.vInt 5) ∧
    ∃ d, assignOne (zeroValue (typeOf (.vStruct (.cons "X" true .tInt (.vInt 5) .nil))))
        (.vInt 5) "X" = (d, none) ∧
      getFieldOrKey d "X" = some (.vInt 5) ∧
      getFieldOrKey (.vStruct (.cons "X" true .tInt (.vInt 5) .nil)) "X" =
        some (.vInt 5) :=
  ⟨by decide, rfl, rfl, rfl,
    takeOne_assignOne_round_trip (.vStruct (.cons "X" true .tInt (.vInt 5) .nil))
      (.vInt 5) "X" (by decide) rfl rfl rfl⟩

/-! ### C6 — workflow structural legality -/

lemma checkInputsLoop_none {node : String} {n : Nat} :
    ∀ (ins : List Mapping) (seen : List String),
    checkInputsLoop node n ins seen = none →
    (∀ i ∈ ins, ¬(i.toF = "" ∧ 1 < n)) ∧
    (ins.map (fun i => i.toF)).Nodup ∧
    (∀ i ∈ ins, i.toF ∉ seen) := by
  intro ins
  induction ins with
  | nil => intro seen _; exact ⟨by simp, by simp, by simp⟩
  | cons i rest ih =>
    intro seen h
    unfold checkInputsLoop at h
    by_cases h1 : i.toF = "" ∧ 1 < n
    · rw [if_pos h1] at h; simp at h
    · rw [if_neg h1] at h
      by_cases h2 : i.toF ∈ seen
      · rw [if_pos h2] at h; simp at h
      · rw [if_neg h2] at h
        obtain ⟨ha, hb, hc⟩ := ih (i.toF :: seen) h
        refine ⟨?_, ?_, ?_⟩
        · intro j hj
          rcases List.mem_cons.mp hj with rfl | hm
          · exact h1
          · exact ha j hm
        · rw [List.map_cons, List.nodup_cons]
          refine ⟨?_, hb⟩
          intro hmem
          obtain ⟨j, hj, hje⟩ := List.mem_map.mp hmem
          have hj2 := hc j hj
          simp only [List.mem_cons, not_or] at hj2
          exact hj2.1 hje
        · intro j hj
          rcases List.mem_cons.mp hj with rfl | hm
          · exact h2
          · intro hmem
            exact hc j hm (List.mem_cons_of_mem _ hmem)

lemma processNode_isSome_of_bad {addE : String → String → Option WErr}
    {addEM : String → String → List Mapping → Option WErr}
    {node : String} {ins : List Mapping} (hbad : badMappingList ins) :
    (processNode addE addEM node ins).isSome = true := by
  rcases hbad with rfl | hbad2
  · rfl
  · cases ins with
    | nil => rfl
    | cons i rest =>
      unfold processNode
      cases hc : checkInputsLoop node (i :: rest).length (i :: rest) [] with
      | some e => simp
      | none =>
        exfalso
        obtain ⟨ha, hb, _⟩ := checkInputsLoop_none (i :: rest) [] hc
        rcases hbad2 with ⟨j, hj, hj2⟩ | hnd
        · exact ha j hj hj2
        · exact hnd hb

lemma endPart_isSome {addE : String → String → Option WErr}
    {addEM : String → String → List Mapping → Option WErr}
    {endM : List Mapping} (hbad : badMappingList endM) :
    (addEdgesWithMapping addE addEM [] endM).isSome = true := by
  rcases hbad with rfl | hbad2
  · rfl
  · cases endM with
    | nil => rfl
    | cons i rest =>
      unfold addEdgesWithMapping
      dsimp only
      cases hc : checkInputsLoop END (i :: rest).length (i :: rest) [] with
      | some e => simp
      | none =>
        exfalso
        obtain ⟨ha, hb, _⟩ := checkInputsLoop_none (i :: rest) [] hc
        rcases hbad2 with ⟨j, hj, hj2⟩ | hnd
        · exact ha j hj hj2
        · exact hnd hb

/-- C6: `addEdgesWithMapping` fails (returns an error) — for every
behaviour of the underlying graph's `AddEdge`/`addEdgeWithMappings` —
whenever any declared node or the virtual `END` node has two incoming
descriptors with the same destination field (even from different source
nodes), or has a whole-input (empty `to`) descriptor among several, or
has no incoming descriptor at all; moreover a node with no incoming
descriptors produces exactly the error naming that node when it is
reached first. -/
theorem addEdgesWithMapping_structural (addE : String → String → Option WErr)
    (addEM : String → String → List Mapping → Option WErr)
    (nodes : List (String × List Mapping)) (endM : List Mapping) (k : String)
    (hbad : (∃ p ∈ nodes, badMappingList p.2) ∨ badMappingList endM) :
    (addEdgesWithMapping addE addEM nodes endM).isSome = true ∧
    addEdgesWithMapping addE addEM ((k, []) :: nodes) endM =
      some (.nodeNoInput k) := by
  constructor
  · induction nodes with
    | nil =>
      rcases hbad with ⟨p, hp, _⟩ | hend
      · simp at hp
      · exact endPart_isSome hend
    | cons p rest ih =>
      obtain ⟨k0, ins0⟩ := p
      unfold addEdgesWithMapping
      cases hpn : processNode addE addEM k0 ins0 with
      | some e => simp
      | none =>
        dsimp only
        rcases hbad with ⟨q, hq, hqbad⟩ | hend
        · rcases List.mem_cons.mp hq with rfl | hm
          · have := @processNode_isSome_of_bad addE addEM k0 ins0 hqbad
            rw [hpn] at this
            simp at this
          · exact ih (Or.inl ⟨q, hm, hqbad⟩)
        · exact ih (Or.inr hend)
  · rfl

theorem addEdgesWithMapping_structural_witness :
    ((∃ p ∈ [("a", [(⟨"s", "", "y"⟩ : Mapping), ⟨"b", "", "y"⟩])],
        badMappingList p.2) ∨ badMappingList [(⟨"a", "", ""⟩ : Mapping)]) ∧
    ((addEdgesWithMapping (fun _ _ => none) (fun _ _ _ => none)
        [("a", [⟨"s", "", "y"⟩, ⟨"b", "", "y"⟩])] [⟨"a", "", ""⟩]).isSome = true ∧
      addEdgesWithMapping (fun _ _ => none) (fun _ _ _ => none)
        (("z", []) :: [("a", [⟨"s", "", "y"⟩, ⟨"b", "", "y"⟩])]) [⟨"a", "", ""⟩] =
        some (.nodeNoInput "z")) :=
  ⟨Or.inl ⟨("a", [⟨"s", "", "y"⟩, ⟨"b", "", "y"⟩]), by simp,
      Or.inr (Or.inr (by simp [badMappingList]))⟩,
    addEdgesWithMapping_structural (fun _ _ => none) (fun _ _ _ => none)
      [("a", [⟨"s", "", "y"⟩, ⟨"b", "", "y"⟩])] [⟨"a", "", ""⟩] "z"
      (Or.inl ⟨("a", [⟨"s", "", "y"⟩, ⟨"b", "", "y"⟩]), by simp,
        Or.inr (Or.inr (by simp [badMappingList]))⟩)⟩

end Eino
